import Mathlib

/-!
Verification of the Lilith agent core (`lilith-on-vae/agent.go`):
task queue ordering, processor control flow, the concurrency limiter,
and the tiered memory store with its TTL/score-based cleanup.

Modelling conventions:
* instants are `Nat` nanoseconds (Go `time.Time` / `UnixNano`), durations are
  `Int` nanoseconds (Go `time.Duration`);
* Go maps are association lists with map semantics (`lookupA`/`setA`/`delA`);
* Go's `float64` retention score is modelled exactly: finite quotients as `ℚ`
  and the IEEE special cases of division by zero (`+Inf`, `-Inf`, `NaN`)
  as the constructors of `FScore` (the sign/zero/NaN classification of the
  score is unaffected by float rounding, so the exact-rational model agrees
  with the float code on every comparison our theorems use);
* each `time.Now()` call site receives the current instant as an explicit
  `now` parameter;
* blocking (the semaphore channel) and goroutine interleaving are modelled by
  the labelled transition systems `ProcStep`/`ProcReach` and `agStep`.
-/

namespace Lilith

/-- An opaque Go `interface{}` value (task payloads and memory values are
opaque to the agent core). -/
inductive GoVal where
  | nil
  | str (s : String)
  | num (n : Int)
  | boolean (b : Bool)
deriving DecidableEq, Repr

/-- Modelled from the spec: the sentinel error values of the package
(`ErrAgentNotRunning`, `ErrMemoryNotFound`, ... are referenced by
`agent.go` but their declaring file is not in the tree; the spec's error
taxonomy in section 7 lists them as distinct errors). -/
inductive GoErr where
  | agentAlreadyRunning
  | agentNotRunning
  | unknownTaskType (ty : String)
  | taskExpired (id : String)
  | memoryNotFound
  | memoryExpired
  | invalidMemoryType
  | cancelled
deriving DecidableEq, Repr

/-- Go constant `DefaultTaskTimeout = 30 * time.Second`, in nanoseconds. -/
def defaultTaskTimeout : Int := 30000000000

/-- Go struct `Task` (`agent.go`). `createdAt = 0` models the zero
`time.Time` checked by `CreatedAt.IsZero()`. -/
structure Task where
  id : String
  type : String
  priority : Int
  data : List (String × GoVal)
  createdAt : Nat
  startedAt : Option Nat
  deadline : Option Nat
  attempts : Nat
deriving DecidableEq, Repr

/-- The comparison closure passed to `sort.SliceStable` in
`Processor.sortTasks`: higher priority first, then earlier creation time. -/
def taskLess (a b : Task) : Bool :=
  if a.priority ≠ b.priority then decide (a.priority > b.priority)
  else decide (a.createdAt < b.createdAt)

/-- Stable insertion of a task into a queue already sorted by `taskLess`:
the new task is placed after every task strictly less than it, which is the
position `sort.SliceStable` gives the appended element. -/
def insertTask (x : Task) : List Task → List Task
  | [] => [x]
  | y :: ys => if taskLess y x then y :: insertTask x ys else x :: y :: ys

/-- `Processor.sortTasks`: stable sort of the queue by `taskLess`. -/
def sortTasks (l : List Task) : List Task := l.foldr insertTask []

/-- The non-strict order a `taskLess`-sorted queue satisfies pairwise:
`b` does not have to come before `a`. -/
def taskOrd (a b : Task) : Prop := taskLess b a = false

theorem taskLess_iff (a b : Task) :
    taskLess a b = true ↔
      b.priority < a.priority ∨
        (a.priority = b.priority ∧ a.createdAt < b.createdAt) := by
  unfold taskLess
  by_cases h : a.priority = b.priority
  · simp [h]
  · simp only [h, ne_eq, not_false_eq_true, if_true, decide_eq_true_eq,
      gt_iff_lt, false_and, or_false]

theorem taskLess_eq_false_iff (a b : Task) :
    taskLess a b = false ↔
      a.priority < b.priority ∨
        (a.priority = b.priority ∧ b.createdAt ≤ a.createdAt) := by
  rw [← Bool.not_eq_true, taskLess_iff]
  omega

theorem taskLess_asymm {a b : Task} (h : taskLess a b = true) :
    taskLess b a = false := by
  rw [taskLess_iff] at h
  rw [taskLess_eq_false_iff]
  omega

theorem taskOrd_trans {a b c : Task} (h₁ : taskOrd a b) (h₂ : taskOrd b c) :
    taskOrd a c := by
  unfold taskOrd at *
  rw [taskLess_eq_false_iff] at *
  omega

theorem insertTask_perm (x : Task) (l : List Task) :
    List.Perm (insertTask x l) (x :: l) := by
  induction l with
  | nil => rfl
  | cons y ys ih =>
    unfold insertTask
    by_cases h : taskLess y x = true
    · simp only [h, if_true]
      exact (ih.cons y).trans (List.Perm.swap x y ys)
    · simp only [Bool.not_eq_true] at h
      simp [h]

theorem mem_insertTask {z x : Task} {l : List Task} :
    z ∈ insertTask x l ↔ z = x ∨ z ∈ l := by
  rw [(insertTask_perm x l).mem_iff, List.mem_cons]

theorem insertTask_pairwise {x : Task} {l : List Task}
    (h : l.Pairwise taskOrd) : (insertTask x l).Pairwise taskOrd := by
  induction l with
  | nil => simp [insertTask, List.pairwise_singleton]
  | cons y ys ih =>
    rcases List.pairwise_cons.mp h with ⟨hy, hys⟩
    unfold insertTask
    by_cases hc : taskLess y x = true
    · simp only [hc, if_true, List.pairwise_cons]
      refine ⟨fun z hz => ?_, ih hys⟩
      rcases mem_insertTask.mp hz with rfl | hz
      · exact taskLess_asymm hc
      · exact hy z hz
    · simp only [Bool.not_eq_true] at hc
      simp only [hc, Bool.false_eq_true, if_false, List.pairwise_cons]
      refine ⟨fun z hz => ?_, hy, hys⟩
      rcases List.mem_cons.mp hz with rfl | hz
      · exact hc
      · exact taskOrd_trans hc (hy z hz)

theorem sortTasks_pairwise (l : List Task) :
    (sortTasks l).Pairwise taskOrd := by
  induction l with
  | nil => simp [sortTasks]
  | cons a l ih => exact insertTask_pairwise ih

theorem sortTasks_perm (l : List Task) : List.Perm (sortTasks l) l := by
  induction l with
  | nil => rfl
  | cons a l ih => exact (insertTask_perm a (sortTasks l)).trans (ih.cons a)

/-- `Processor.AddTask`: generate an id from the clock when the task has
none, stamp the creation time when it is the zero time. -/
def finalizeTask (task : Task) (now : Nat) : Task :=
  let t1 := if task.id = "" then { task with id := "task-" ++ toString now }
            else task
  if t1.createdAt = 0 then { t1 with createdAt := now } else t1

/-- Go struct `Processor`. Handler functions are arbitrary external Go code,
so the registry keeps only the registered task types; whether and under what
timeout a handler is invoked is recorded in `ProcEvent`. `semCap` is the
buffered-channel capacity `config.MaxConcurrentTasks`. -/
structure Processor where
  tasks : List Task
  handlers : List String
  semCap : Nat
deriving DecidableEq, Repr

/-- `Processor.AddTask`: stamp the task, append it and re-sort; the Go
method always returns `nil`. -/
def Processor.addTask (p : Processor) (task : Task) (now : Nat) :
    Processor × Option GoErr :=
  ({ p with tasks := sortTasks (p.tasks ++ [finalizeTask task now]) }, none)

/-- The deadline test in `Processor.Process`:
`task.Deadline != nil && time.Now().After(*task.Deadline)`. -/
def expiredNow (t : Task) (now : Nat) : Bool :=
  match t.deadline with
  | some d => decide (now > d)
  | none => false

/-- `Processor.getTaskTimeout`: time until the task's own deadline when one
is set, else the package constant `DefaultTaskTimeout`. -/
def getTaskTimeout (t : Task) (now : Nat) : Int :=
  match t.deadline with
  | some d => (d : Int) - (now : Int)
  | none => defaultTaskTimeout

/-- The observable outcome of one `Processor.Process` call. -/
inductive ProcEvent where
  | idle
  | expired (id : String)
  | noHandler (ty : String)
  | handled (id : String) (timeoutNanos : Int) (attempt : Nat)
deriving DecidableEq, Repr

/-- Whether the `Process` path producing this event reaches the
`select` on the semaphore channel: the empty-queue return and the
expired-deadline return both happen before it in the source. -/
def ProcEvent.usesSlot : ProcEvent → Bool
  | .idle => false
  | .expired _ => false
  | .noHandler _ => true
  | .handled _ _ _ => true

/-- `Processor.executeTask`: look up the handler by type (error before any
mutation when none is registered), then run it with `attempts` incremented
under a context whose timeout is `getTaskTimeout`. -/
def Processor.executeTask (p : Processor) (t : Task) (now : Nat) : ProcEvent :=
  if p.handlers.contains t.type then
    .handled t.id (getTaskTimeout t now) (t.attempts + 1)
  else .noHandler t.type

/-- `Processor.Process`, modelling one completed call: pop the head task,
drop it with the expiry error when its deadline has passed, otherwise
acquire a semaphore slot and run `executeTask` (blocking on a full
semaphore and cancellation are modelled separately by `ProcStep`). -/
def Processor.process (p : Processor) (now : Nat) : Processor × ProcEvent :=
  match p.tasks with
  | [] => (p, .idle)
  | task :: rest =>
    if expiredNow task now then ({ p with tasks := rest }, .expired task.id)
    else ({ p with tasks := rest }, p.executeTask task now)

/-- One queue-affecting operation: an `AddTask` call, or the pop performed
at the top of a `Process` call on a non-empty queue. -/
inductive QOp where
  | add (t : Task) (now : Nat)
  | pop
deriving DecidableEq, Repr

def applyOp (q : List Task) : QOp → List Task
  | .add t now => sortTasks (q ++ [finalizeTask t now])
  | .pop => q.tail

/-- The queue after a sequence of `AddTask` calls and `Process` pops,
starting from the empty queue of `NewProcessor`. -/
def runOps (ops : List QOp) : List Task := ops.foldl applyOp []

theorem applyOp_pairwise {q : List Task} (h : q.Pairwise taskOrd)
    (op : QOp) : (applyOp q op).Pairwise taskOrd := by
  cases op with
  | add t now => exact sortTasks_pairwise _
  | pop =>
    cases q with
    | nil => exact h
    | cons a q => exact (List.pairwise_cons.mp h).2

theorem runOps_pairwise (ops : List QOp) : (runOps ops).Pairwise taskOrd := by
  suffices h : ∀ q : List Task, q.Pairwise taskOrd →
      (ops.foldl applyOp q).Pairwise taskOrd from h [] List.Pairwise.nil
  induction ops with
  | nil => exact fun q hq => hq
  | cons op ops ih => exact fun q hq => ih _ (applyOp_pairwise hq op)

/-- C1: after any sequence of `add_task` calls and `Process` pops, the task
at the head of the queue — the one the next `Process` call pops — has
priority at least that of every remaining task, and among remaining tasks of
equal priority its creation time is the earliest. -/
theorem tasks_dequeue_priority_order (ops : List QOp) (t : Task)
    (rest : List Task) (h : runOps ops = t :: rest) :
    ∀ u ∈ rest,
      u.priority ≤ t.priority ∧
        (u.priority = t.priority → t.createdAt ≤ u.createdAt) := by
  intro u hu
  have hp := runOps_pairwise ops
  rw [h, List.pairwise_cons] at hp
  have hord := hp.1 u hu
  unfold taskOrd at hord
  rw [taskLess_eq_false_iff] at hord
  constructor
  · omega
  · intro he
    omega

def wTaskLow : Task := ⟨"low", "work", 1, [], 4, none, none, 0⟩

def wTaskHigh : Task := ⟨"high", "work", 5, [], 9, none, none, 0⟩

/-- Witness for C1 at a concrete call sequence: the low-priority task added
first ends up behind the high-priority one. -/
theorem tasks_dequeue_priority_order_witness :
    runOps [QOp.add wTaskLow 4, QOp.add wTaskHigh 9] = wTaskHigh :: [wTaskLow] ∧
      (wTaskLow.priority ≤ wTaskHigh.priority ∧
        (wTaskLow.priority = wTaskHigh.priority →
          wTaskHigh.createdAt ≤ wTaskLow.createdAt)) :=
  ⟨by decide,
    tasks_dequeue_priority_order [QOp.add wTaskLow 4, QOp.add wTaskHigh 9]
      wTaskHigh [wTaskLow] (by decide) wTaskLow (by decide)⟩

/-- C9: `AddTask` never fails, the new queue is the old queue plus the
stamped task (nothing dropped at any queue length), an id is generated
exactly when the incoming id is empty, and the creation time is stamped
exactly when it is the zero time. -/
theorem add_task_always_succeeds_and_keeps_all (p : Processor) (t : Task)
    (now : Nat) :
    (p.addTask t now).2 = none ∧
      List.Perm (p.addTask t now).1.tasks (finalizeTask t now :: p.tasks) ∧
      (p.addTask t now).1.tasks.length = p.tasks.length + 1 ∧
      (finalizeTask t now).id =
        (if t.id = "" then "task-" ++ toString now else t.id) ∧
      (finalizeTask t now).createdAt =
        (if t.createdAt = 0 then now else t.createdAt) := by
  have hperm : List.Perm (p.addTask t now).1.tasks
      (finalizeTask t now :: p.tasks) := by
    unfold Processor.addTask
    exact (sortTasks_perm _).trans (List.perm_append_singleton _ _)
  refine ⟨rfl, hperm, ?_, ?_, ?_⟩
  · rw [hperm.length_eq]
    simp
  · unfold finalizeTask
    by_cases h : t.id = "" <;> by_cases h2 : t.createdAt = 0 <;> simp [h, h2]
  · unfold finalizeTask
    by_cases h : t.id = "" <;> by_cases h2 : t.createdAt = 0 <;> simp [h, h2]

/-- C4: when the head task's deadline is already past, `Process` drops it
from the queue and reports the expiry failure; the event is not a handler
invocation, the task is not re-queued, and the path never reaches the
semaphore `select`. -/
theorem process_expired_drops_without_handler (p : Processor) (t : Task)
    (rest : List Task) (d now : Nat) (hq : p.tasks = t :: rest)
    (hd : t.deadline = some d) (hpast : d < now) :
    p.process now = ({ p with tasks := rest }, ProcEvent.expired t.id) ∧
      (p.process now).2.usesSlot = false := by
  have hex : expiredNow t now = true := by
    unfold expiredNow
    rw [hd]
    simpa using hpast
  have hp : p.process now = ({ p with tasks := rest }, ProcEvent.expired t.id) := by
    unfold Processor.process
    rw [hq]
    simp [hex]
  exact ⟨hp, by rw [hp]; rfl⟩

def wExpiredTask : Task := ⟨"late", "work", 3, [], 1, none, some 10, 0⟩

def wProcA : Processor := ⟨[wExpiredTask], ["work"], 4⟩

/-- Witness for C4: a task whose deadline (10) precedes the tick time (25)
is dropped with the expiry event and without touching the semaphore. -/
theorem process_expired_drops_without_handler_witness :
    wProcA.process 25 = ({ wProcA with tasks := [] }, ProcEvent.expired "late") ∧
      (wProcA.process 25).2.usesSlot = false :=
  process_expired_drops_without_handler wProcA wExpiredTask [] 10 25
    (by decide) (by decide) (by decide)

def cex7Task : Task := ⟨"t1", "work", 0, [], 1, none, some 60000000000, 0⟩

def cex7Proc : Processor := ⟨[cex7Task], ["work"], 10⟩

/-- C7 counterexample: a task whose deadline lies 60s ahead is handed to its
handler under a 60s timeout, twice the default task timeout (30s), so the
deadline is not intersected with the default; the claim that the execution
timeout never exceeds the configured default is false. -/
theorem deadline_timeout_exceeds_default_cex :
    (cex7Proc.process 0).2 = ProcEvent.handled "t1" 60000000000 1 ∧
      defaultTaskTimeout = 30000000000 ∧
      (60000000000 : Int) > defaultTaskTimeout := by
  decide

/-- C7 (amended): a task reaching execution runs under a timeout equal to
the time remaining until its own deadline when one is set — with no
intersection against any default, so it can exceed it — and equal to the
package constant `DefaultTaskTimeout` (30s) when not; the configured
`task_timeout` value is not consulted by the processor. -/
theorem execution_timeout_from_deadline_or_default (p : Processor) (t : Task)
    (rest : List Task) (now : Nat) (hq : p.tasks = t :: rest)
    (hnx : expiredNow t now = false)
    (hh : t.type ∈ p.handlers) :
    (p.process now).2 = ProcEvent.handled t.id (getTaskTimeout t now)
        (t.attempts + 1) ∧
      getTaskTimeout t now =
        (match t.deadline with
          | some d => (d : Int) - (now : Int)
          | none => defaultTaskTimeout) := by
  constructor
  · unfold Processor.process
    rw [hq]
    simp [hnx, Processor.executeTask, hh]
  · rfl

/-- Witness for C7's amended statement: a deadline-free task runs under
exactly the 30s default. -/
theorem execution_timeout_from_deadline_or_default_witness :
    ((⟨[wTaskLow], ["work"], 2⟩ : Processor).process 7).2 =
      ProcEvent.handled "low" defaultTaskTimeout 1 :=
  (execution_timeout_from_deadline_or_default ⟨[wTaskLow], ["work"], 2⟩
    wTaskLow [] 7 (by decide) (by decide) (by decide)).1

/-- Go struct `MemoryItem`. -/
structure MemoryItem where
  value : GoVal
  createdAt : Nat
  expiresAt : Option Nat
  accessCount : Nat
  lastAccess : Nat
  priority : Int
deriving DecidableEq, Repr

/-- Go struct `MemoryStore`; the map is an association list with map
semantics. `maxSize` is a Go `int`, so it may be zero or negative. -/
structure MemoryStore where
  data : List (String × MemoryItem)
  maxSize : Int
  persistent : Bool
deriving DecidableEq, Repr

/-- Lookup in the Go map `m.data`. -/
def lookupA : List (String × MemoryItem) → String → Option MemoryItem
  | [], _ => none
  | (k', v) :: rest, k => if k' = k then some v else lookupA rest k

/-- The Go map assignment `m.data[key] = item`. -/
def setA : List (String × MemoryItem) → String → MemoryItem →
    List (String × MemoryItem)
  | [], k, v => [(k, v)]
  | (k', v') :: rest, k, v =>
    if k' = k then (k, v) :: rest else (k', v') :: setA rest k v

/-- The Go map removal `delete(m.data, key)`. -/
def delA (l : List (String × MemoryItem)) (k : String) :
    List (String × MemoryItem) :=
  l.filter (fun p => p.1 ≠ k)

theorem lookupA_setA_self (l : List (String × MemoryItem)) (k : String)
    (v : MemoryItem) : lookupA (setA l k v) k = some v := by
  induction l with
  | nil => simp [setA, lookupA]
  | cons p rest ih =>
    by_cases h : p.1 = k
    · simp [setA, h, lookupA]
    · simp [setA, h, lookupA, ih]

theorem setA_length_le (l : List (String × MemoryItem)) (k : String)
    (v : MemoryItem) : (setA l k v).length ≤ l.length + 1 := by
  induction l with
  | nil => simp [setA]
  | cons p rest ih =>
    by_cases h : p.1 = k
    · simp [setA, h]
    · simp only [setA, h, if_false, List.length_cons]
      omega

theorem lookupA_delA_self (l : List (String × MemoryItem)) (k : String) :
    lookupA (delA l k) k = none := by
  induction l with
  | nil => rfl
  | cons p rest ih =>
    by_cases h : p.1 = k
    · simpa [delA, h] using ih
    · simpa [delA, lookupA, h] using ih

theorem mem_delA {p : String × MemoryItem} {l : List (String × MemoryItem)}
    {k : String} (h : p ∈ delA l k) : p ∈ l ∧ p.1 ≠ k := by
  unfold delA at h
  have := List.mem_filter.mp h
  simpa using this

/-- The expiry test used by `Get` and by the first phase of `cleanup`:
`item.ExpiresAt != nil && now.After(*item.ExpiresAt)`. -/
def isExpired (it : MemoryItem) (now : Nat) : Bool :=
  match it.expiresAt with
  | some e => decide (now > e)
  | none => false

/-- `time.Since(item.LastAccess).Seconds()` as an exact rational. -/
def elapsedSeconds (lastAccess now : Nat) : ℚ :=
  ((now : ℚ) - (lastAccess : ℚ)) / 1000000000

/-- The value of the `float64` retention score: finite quotients are kept
exact, and division by zero follows IEEE 754 (`±Inf` for a signed
numerator, `NaN` for `0/0`), which is what the Go expression
`float64(priority) * float64(accessCount) / seconds` produces. -/
inductive FScore where
  | nan
  | negInf
  | fin (q : ℚ)
  | posInf
deriving DecidableEq, Repr

/-- The retention score of `MemoryStore.cleanup`:
`float64(item.Priority) * float64(item.AccessCount) / time.Since(item.LastAccess).Seconds()`. -/
def scoreOf (it : MemoryItem) (now : Nat) : FScore :=
  let num : ℚ := (it.priority : ℚ) * (it.accessCount : ℚ)
  let den : ℚ := elapsedSeconds it.lastAccess now
  if den = 0 then
    if num > 0 then .posInf else if num < 0 then .negInf else .nan
  else .fin (num / den)

/-- IEEE `<` on scores: `NaN` compares false against everything. -/
def fscoreLt : FScore → FScore → Bool
  | .nan, _ => false
  | _, .nan => false
  | .negInf, .negInf => false
  | .negInf, _ => true
  | _, .negInf => false
  | .fin a, .fin b => decide (a < b)
  | .fin _, .posInf => true
  | .posInf, _ => false

/-- Insertion step of the ascending `sort.Slice` on `(key, score)` pairs
(ties and `NaN` are placed deterministically here; the Go sort is unstable
over a randomly-ordered map, so only comparisons between strictly ordered
scores are meaningful). -/
def insertScored (x : String × FScore) :
    List (String × FScore) → List (String × FScore)
  | [] => [x]
  | y :: ys => if fscoreLt x.2 y.2 then x :: y :: ys else y :: insertScored x ys

/-- The `sort.Slice(items, ...)` call of `cleanup`: ascending by score. -/
def sortScored (l : List (String × FScore)) : List (String × FScore) :=
  l.foldr insertScored []

theorem insertScored_perm (x : String × FScore) (l : List (String × FScore)) :
    List.Perm (insertScored x l) (x :: l) := by
  induction l with
  | nil => rfl
  | cons y ys ih =>
    unfold insertScored
    by_cases h : fscoreLt x.2 y.2 = true
    · simp [h]
    · simp only [Bool.not_eq_true] at h
      simp only [h, Bool.false_eq_true, if_false]
      exact ((ih.cons y).trans (List.Perm.swap x y ys)).symm.symm

theorem sortScored_perm (l : List (String × FScore)) :
    List.Perm (sortScored l) l := by
  induction l with
  | nil => rfl
  | cons a l ih => exact (insertScored_perm a (sortScored l)).trans (ih.cons a)

/-- The eviction loop of `cleanup`:
`for i := 0; i < len(items) && len(m.data) >= m.maxSize; i++ { delete(...) }`. -/
def evictLoop (data : List (String × MemoryItem)) (maxSize : Int) :
    List String → List (String × MemoryItem)
  | [] => data
  | k :: ks =>
    if (data.length : Int) ≥ maxSize then evictLoop (delA data k) maxSize ks
    else data

/-- `MemoryStore.cleanup`: drop expired items, then, if still at or over
capacity, evict in ascending retention-score order until under capacity. -/
def MemoryStore.cleanup (m : MemoryStore) (now : Nat) : MemoryStore :=
  let data1 := m.data.filter (fun p => !(isExpired p.2 now))
  if (data1.length : Int) ≥ m.maxSize then
    let items := sortScored (data1.map (fun p => (p.1, scoreOf p.2 now)))
    { m with data := evictLoop data1 m.maxSize (items.map (fun i => i.1)) }
  else { m with data := data1 }

/-- `MemoryStore.Set`: run `cleanup` first when at or over capacity, then
insert; the Go method always returns `nil`. -/
def MemoryStore.set (m : MemoryStore) (key : String) (item : MemoryItem)
    (now : Nat) : MemoryStore × Option GoErr :=
  let m1 := if (m.data.length : Int) ≥ m.maxSize then m.cleanup now else m
  ({ m1 with data := setA m1.data key item }, none)

/-- `MemoryStore.Get`: not-found on absence; on an expired item delete it
and fail; otherwise bump the access metrics and return the value. -/
def MemoryStore.get (m : MemoryStore) (key : String) (now : Nat) :
    MemoryStore × Except GoErr GoVal :=
  match lookupA m.data key with
  | none => (m, .error .memoryNotFound)
  | some item =>
    if isExpired item now then
      ({ m with data := delA m.data key }, .error .memoryExpired)
    else
      let item' := { item with accessCount := item.accessCount + 1,
                               lastAccess := now }
      ({ m with data := setA m.data key item' }, .ok item.value)

theorem evictLoop_length_lt (maxSize : Int) (hcap : 1 ≤ maxSize) :
    ∀ (ks : List String) (data : List (String × MemoryItem)),
      (∀ p ∈ data, p.1 ∈ ks) →
      ((evictLoop data maxSize ks).length : Int) < maxSize := by
  intro ks
  induction ks with
  | nil =>
    intro data h
    have hnil : data = [] := by
      cases data with
      | nil => rfl
      | cons p rest => exact absurd (h p (List.mem_cons_self p rest)) (by simp)
    simp [evictLoop, hnil]
    omega
  | cons k ks ih =>
    intro data h
    unfold evictLoop
    by_cases hlen : (data.length : Int) ≥ maxSize
    · simp only [hlen, if_true]
      refine ih (delA data k) fun p hp => ?_
      rcases mem_delA hp with ⟨hpd, hpk⟩
      rcases List.mem_cons.mp (h p hpd) with heq | hin
      · exact absurd heq hpk
      · exact hin
    · simp only [hlen, if_false]
      omega

theorem cleanup_length_lt (m : MemoryStore) (now : Nat)
    (hcap : 1 ≤ m.maxSize) :
    (((m.cleanup now).data.length : Int)) < m.maxSize := by
  unfold MemoryStore.cleanup
  set data1 := m.data.filter (fun p => !(isExpired p.2 now)) with hdata1
  by_cases hlen : (data1.length : Int) ≥ m.maxSize
  · simp only [hlen, if_true]
    refine evictLoop_length_lt m.maxSize hcap _ data1 fun p hp => ?_
    have hperm := sortScored_perm (data1.map (fun p => (p.1, scoreOf p.2 now)))
    rw [List.mem_map]
    refine ⟨(p.1, scoreOf p.2 now), ?_, rfl⟩
    rw [hperm.mem_iff, List.mem_map]
    exact ⟨p, hp, rfl⟩
  · simp only [hlen, if_false]
    omega

def cex2Item : MemoryItem := ⟨.nil, 0, none, 0, 0, 1⟩

/-- C2 counterexample: a store of capacity 0 (`maxSize` is an unvalidated
Go `int`, and the config validator never checks the memory capacities) ends
a `set` call holding one item, strictly above its capacity — cleanup runs
but cannot get the size below zero, and the insertion then overflows. -/
theorem set_over_capacity_zero_cex :
    (((MemoryStore.set ⟨[], 0, false⟩ "k" cex2Item 0).1.data.length : Int)) >
      (MemoryStore.mk [] 0 false).maxSize := by
  decide

/-- C2 (amended): for every store whose capacity is at least 1, a `set`
call triggers `cleanup` when the store is at or over capacity and leaves
the store at no more than its capacity. -/
theorem set_keeps_store_within_capacity (m : MemoryStore) (k : String)
    (it : MemoryItem) (now : Nat) (hcap : 1 ≤ m.maxSize) :
    (((m.set k it now).1.data.length : Int)) ≤ m.maxSize := by
  unfold MemoryStore.set
  by_cases hlen : (m.data.length : Int) ≥ m.maxSize
  · simp only [hlen, if_true]
    have h1 := cleanup_length_lt m now hcap
    have h2 := setA_length_le (m.cleanup now).data k it
    have h3 : ((setA (m.cleanup now).data k it).length : Int) ≤
        ((m.cleanup now).data.length : Int) + 1 := by exact_mod_cast h2
    omega
  · simp only [hlen, if_false]
    have h2 := setA_length_le m.data k it
    have h3 : ((setA m.data k it).length : Int) ≤ (m.data.length : Int) + 1 := by
      exact_mod_cast h2
    omega

def wMemStore : MemoryStore := ⟨[("a", cex2Item)], 3, false⟩

/-- Witness for C2's amended statement on a concrete capacity-3 store. -/
theorem set_keeps_store_within_capacity_witness :
    (1 : Int) ≤ wMemStore.maxSize ∧
      (((wMemStore.set "b" cex2Item 5).1.data.length : Int)) ≤
        wMemStore.maxSize :=
  ⟨by decide, set_keeps_store_within_capacity wMemStore "b" cex2Item 5
    (by decide)⟩

theorem elapsedSeconds_pos {lastAccess now : Nat} (h : lastAccess < now) :
    0 < elapsedSeconds lastAccess now := by
  unfold elapsedSeconds
  have hsub : (0 : ℚ) < (now : ℚ) - (lastAccess : ℚ) := by
    rw [sub_pos]
    exact_mod_cast h
  exact div_pos hsub (by norm_num)

theorem scoreOf_never_accessed {it : MemoryItem} {now : Nat}
    (hc : it.accessCount = 0) (ht : it.lastAccess < now) :
    scoreOf it now = FScore.fin 0 := by
  unfold scoreOf
  simp [hc, ne_of_gt (elapsedSeconds_pos ht)]

/-- C3 counterexample: a never-accessed item whose recorded last access
equals the current instant gets score `0/0 = NaN` from the float division,
not 0 — the code divides by `time.Since(...).Seconds()` unguarded, so at
`seconds_since_last_access == 0` the score is neither 0 nor saturated. -/
theorem never_accessed_score_nan_cex :
    scoreOf ⟨GoVal.nil, 100, none, 0, 100, 1⟩ 100 = FScore.nan ∧
      FScore.nan ≠ FScore.fin 0 := by
  constructor
  · unfold scoreOf
    norm_num [elapsedSeconds]
  · decide

/-- C3 (amended): for items last accessed strictly in the past, a
never-accessed item scores exactly 0 while an item with positive priority
and access count scores strictly positive, so in the capacity-2 store of
the spec scenario `cleanup` evicts the never-accessed key `b` and keeps the
five-times-accessed key `a`. -/
theorem cleanup_evicts_never_accessed_first (ka kb : String)
    (ia ib : MemoryItem) (now : Nat) (hk : ka ≠ kb)
    (hac : ia.accessCount = 5) (hap : ia.priority = 1)
    (hae : ia.expiresAt = none) (hat : ia.lastAccess < now)
    (hbc : ib.accessCount = 0) (hbe : ib.expiresAt = none)
    (hbt : ib.lastAccess < now) :
    scoreOf ib now = FScore.fin 0 ∧
      (MemoryStore.cleanup ⟨[(ka, ia), (kb, ib)], 2, false⟩ now).data =
        [(ka, ia)] := by
  have hsb : scoreOf ib now = FScore.fin 0 := scoreOf_never_accessed hbc hbt
  have hdena := elapsedSeconds_pos hat
  have hqa : (0 : ℚ) < 5 / elapsedSeconds ia.lastAccess now :=
    div_pos (by norm_num) hdena
  have hsa : scoreOf ia now =
      FScore.fin (5 / elapsedSeconds ia.lastAccess now) := by
    unfold scoreOf
    simp [hap, hac, ne_of_gt hdena]
  have hlt : fscoreLt (FScore.fin (5 / elapsedSeconds ia.lastAccess now))
      (FScore.fin 0) = false := by
    simp [fscoreLt]
    exact hqa.le
  refine ⟨hsb, ?_⟩
  unfold MemoryStore.cleanup
  simp only [List.filter, isExpired, hae, hbe, Bool.not_false]
  simp only [List.length_cons, List.length_nil, List.map]
  rw [if_pos (by norm_num)]
  simp only [sortScored, List.foldr, insertScored, hsa, hsb, hlt,
    Bool.false_eq_true, if_false, List.map]
  simp only [evictLoop, List.length_cons, List.length_nil]
  rw [if_pos (by norm_num)]
  have hdel : delA [(ka, ia), (kb, ib)] kb = [(ka, ia)] := by
    simp [delA, hk]
  rw [hdel]
  rw [if_neg (by norm_num)]

def wItemA : MemoryItem := ⟨.str "kept", 0, none, 5, 10, 1⟩

def wItemB : MemoryItem := ⟨.str "evicted", 0, none, 0, 20, 1⟩

/-- Witness for C3's amended statement: in a concrete capacity-2 store the
never-accessed item under key b is the one evicted. -/
theorem cleanup_evicts_never_accessed_first_witness :
    scoreOf wItemB 1000000000 = FScore.fin 0 ∧
      (MemoryStore.cleanup ⟨[("a", wItemA), ("b", wItemB)], 2, false⟩
          1000000000).data = [("a", wItemA)] :=
  cleanup_evicts_never_accessed_first "a" "b" wItemA wItemB 1000000000
    (by decide) rfl rfl rfl (by decide) rfl rfl (by decide)

/-- C6: `get` returns the value and bumps the access metrics on a present,
unexpired key; fails with the not-found error on an absent key; and on an
expired key fails with the expired error and deletes the item, leaving the
key absent. -/
theorem memory_get_branches (m : MemoryStore) (k : String) (now : Nat) :
    (lookupA m.data k = none →
      m.get k now = (m, Except.error GoErr.memoryNotFound)) ∧
    (∀ it, lookupA m.data k = some it → isExpired it now = true →
      (m.get k now).2 = Except.error GoErr.memoryExpired ∧
        lookupA (m.get k now).1.data k = none) ∧
    (∀ it, lookupA m.data k = some it → isExpired it now = false →
      (m.get k now).2 = Except.ok it.value ∧
        lookupA (m.get k now).1.data k =
          some { it with accessCount := it.accessCount + 1,
                         lastAccess := now }) := by
  refine ⟨fun hnone => ?_, fun it hsome hexp => ?_, fun it hsome hexp => ?_⟩
  · unfold MemoryStore.get
    rw [hnone]
  · unfold MemoryStore.get
    rw [hsome]
    simp only [hexp, if_true]
    exact ⟨by trivial, lookupA_delA_self m.data k⟩
  · unfold MemoryStore.get
    rw [hsome]
    simp only [hexp, Bool.false_eq_true, if_false]
    exact ⟨by trivial, lookupA_setA_self m.data k _⟩

def wGetStore : MemoryStore :=
  ⟨[("live", ⟨.num 7, 0, none, 2, 3, 1⟩), ("dead", ⟨.num 8, 0, some 5, 0, 0, 1⟩)],
    10, false⟩

/-- Witness for C6 exercising all three branches of `get` on a concrete
store at time 9: a live key, an absent key, and a key that expired at 5. -/
theorem memory_get_branches_witness :
    (wGetStore.get "gone" 9 = (wGetStore, Except.error GoErr.memoryNotFound)) ∧
      ((wGetStore.get "dead" 9).2 = Except.error GoErr.memoryExpired ∧
        lookupA (wGetStore.get "dead" 9).1.data "dead" = none) ∧
      ((wGetStore.get "live" 9).2 = Except.ok (GoVal.num 7) ∧
        lookupA (wGetStore.get "live" 9).1.data "live" =
          some ⟨.num 7, 0, none, 3, 9, 1⟩) :=
  ⟨(memory_get_branches wGetStore "gone" 9).1 (by decide),
    (memory_get_branches wGetStore "dead" 9).2.1 ⟨.num 8, 0, some 5, 0, 0, 1⟩
      (by decide) (by decide),
    (memory_get_branches wGetStore "live" 9).2.2 ⟨.num 7, 0, none, 2, 3, 1⟩
      (by decide) (by decide)⟩

def memoryTypeShortTerm : Int := 0

def memoryTypeLongTerm : Int := 1

def memoryTypeVolatile : Int := 2

/-- Go struct `State` (the fields the memory claims touch; `MemoryType` is a
Go `int`, so the selector below takes an arbitrary `Int`). -/
structure State where
  status : String
  shortTerm : MemoryStore
  longTerm : MemoryStore
  volatile : MemoryStore
  tasksProcessed : Nat
deriving DecidableEq, Repr

/-- `State.Remember`: select the store by memory type (error on any other
value), build the item with `AccessCount: 0` and `Priority: 1`, TTL turned
into an absolute expiry only when positive, and forward to `Set`. -/
def State.remember (s : State) (key : String) (value : GoVal)
    (memoryType : Int) (ttl : Int) (now : Nat) : State × Option GoErr :=
  let expiresAt : Option Nat :=
    if ttl > 0 then some (now + ttl.toNat) else none
  let item : MemoryItem := ⟨value, now, expiresAt, 0, now, 1⟩
  if memoryType = memoryTypeShortTerm then
    let r := s.shortTerm.set key item now
    ({ s with shortTerm := r.1 }, r.2)
  else if memoryType = memoryTypeLongTerm then
    let r := s.longTerm.set key item now
    ({ s with longTerm := r.1 }, r.2)
  else if memoryType = memoryTypeVolatile then
    let r := s.volatile.set key item now
    ({ s with volatile := r.1 }, r.2)
  else (s, some .invalidMemoryType)

theorem lookupA_set_fst (m : MemoryStore) (k : String) (it : MemoryItem)
    (now : Nat) : lookupA (m.set k it now).1.data k = some it := by
  unfold MemoryStore.set
  by_cases h : (m.data.length : Int) ≥ m.maxSize
  · simp only [h, if_true]
    exact lookupA_setA_self _ k it
  · simp only [h, if_false]
    exact lookupA_setA_self _ k it

/-- C10: whatever key, value, memory tier and ttl a caller passes,
`Remember` stores an item whose `Priority` is 1 and whose `AccessCount` is
0 — callers cannot choose an eviction priority through the public memory
API. -/
theorem remember_fixes_priority_and_access_count (s : State) (k : String)
    (v : GoVal) (ttl : Int) (now : Nat) :
    ((lookupA (s.remember k v memoryTypeShortTerm ttl now).1.shortTerm.data
        k).map (fun it => (it.priority, it.accessCount)) =
      some ((1 : Int), (0 : Nat))) ∧
    ((lookupA (s.remember k v memoryTypeLongTerm ttl now).1.longTerm.data
        k).map (fun it => (it.priority, it.accessCount)) =
      some ((1 : Int), (0 : Nat))) ∧
    ((lookupA (s.remember k v memoryTypeVolatile ttl now).1.volatile.data
        k).map (fun it => (it.priority, it.accessCount)) =
      some ((1 : Int), (0 : Nat))) := by
  refine ⟨?_, ?_, ?_⟩ <;>
    simp [State.remember, memoryTypeShortTerm, memoryTypeLongTerm,
      memoryTypeVolatile, lookupA_set_fst]

/-- The processor's concurrency system: the queue together with the
multiset of tasks whose handlers are currently executing, bounded by the
semaphore channel's capacity `cap = config.MaxConcurrentTasks`. -/
structure ProcSys where
  queue : List Task
  running : List Task
  cap : Nat
deriving DecidableEq, Repr

/-- Interleaved steps of concurrent `AddTask`/`Process` calls. A `Process`
call past the expiry check may begin executing its task only when fewer
than `cap` handlers are in flight — sending on the full semaphore channel
blocks; `finishTask` is the deferred receive releasing the slot. -/
inductive ProcStep : ProcSys → ProcSys → Prop where
  | add (s : ProcSys) (t : Task) (now : Nat) :
      ProcStep s { s with queue := sortTasks (s.queue ++ [finalizeTask t now]) }
  | dropExpired (s : ProcSys) (t : Task) (rest : List Task) (now : Nat) :
      s.queue = t :: rest → expiredNow t now = true →
      ProcStep s { s with queue := rest }
  | beginTask (s : ProcSys) (t : Task) (rest : List Task) (now : Nat) :
      s.queue = t :: rest → expiredNow t now = false →
      s.running.length < s.cap →
      ProcStep s { s with queue := rest, running := t :: s.running }
  | finishTask (s : ProcSys) (t : Task) :
      t ∈ s.running →
      ProcStep s { s with running := s.running.erase t }

/-- States reachable from a fresh `NewProcessor` with semaphore capacity
`cap` under any interleaving of steps. -/
inductive ProcReach (cap : Nat) : ProcSys → Prop where
  | init : ProcReach cap ⟨[], [], cap⟩
  | step {s s' : ProcSys} : ProcReach cap s → ProcStep s s' →
      ProcReach cap s'

/-- C8: in every reachable interleaving of concurrent `Process` calls, at
most `cap` task handlers execute simultaneously — a call beyond that
blocks on the semaphore until a slot frees, whatever the queue depth. -/
theorem procStep_keeps_bound {s s' : ProcSys} (hstep : ProcStep s s')
    (h : s.running.length ≤ s.cap) : s'.running.length ≤ s'.cap := by
  cases hstep with
  | add t now => simpa using h
  | dropExpired t rest now hq he => simpa using h
  | beginTask t rest now hq he hlt => simpa using hlt
  | finishTask t hm =>
    have hsub : (s.running.erase t).Sublist s.running :=
      List.erase_sublist t s.running
    simpa using le_trans hsub.length_le h

theorem concurrent_handlers_bounded (cap : Nat) (s : ProcSys)
    (h : ProcReach cap s) : s.running.length ≤ s.cap := by
  induction h with
  | init => simp
  | step hr hs ih => exact procStep_keeps_bound hs ih

def wRunTask : Task := ⟨"w1", "work", 2, [], 3, none, none, 0⟩

/-- Witness for C8: a concrete reachable state of a capacity-2 system with
one handler in flight satisfies the bound. -/
theorem concurrent_handlers_bounded_witness :
    (ProcSys.mk [] [wRunTask] 2).running.length ≤
      (ProcSys.mk [] [wRunTask] 2).cap :=
  concurrent_handlers_bounded 2 ⟨[], [wRunTask], 2⟩
    (ProcReach.step
      (ProcReach.step ProcReach.init (ProcStep.add ⟨[], [], 2⟩ wRunTask 3))
      (ProcStep.beginTask ⟨[wRunTask], [], 2⟩ wRunTask [] 4 (by decide)
        (by decide) (by decide)))

/-- The agent's lifecycle state: `isRunning` (under `a.mu`), whether the
root context has been cancelled, and whether each of the two background
goroutines (`run` and `memoryCleanup`) is still looping. -/
structure AgSys where
  isRunning : Bool
  cancelled : Bool
  runAlive : Bool
  cleanAlive : Bool
deriving DecidableEq, Repr

/-- Observable lifecycle events. `tick` is the `run` loop choosing the
ticker branch of its `select` and calling `Processor.Process`; Go's
`select` picks pseudo-randomly among ready cases, so a pending tick may
be chosen even after the context was cancelled. `runExit`/`cleanExit` are
the loops observing `ctx.Done()` and returning. -/
inductive AgEvent where
  | start
  | stop
  | tick
  | runExit
  | sweep
  | cleanExit
deriving DecidableEq, Repr

/-- One step of the agent lifecycle; `none` means the event is impossible
in that state (for `start`/`stop`, the Go method returns the lifecycle
error instead). -/
def agStep (s : AgSys) : AgEvent → Option AgSys
  | .start =>
    if s.isRunning then none
    else some { s with isRunning := true, runAlive := true, cleanAlive := true }
  | .stop =>
    if s.isRunning then some { s with cancelled := true, isRunning := false }
    else none
  | .tick => if s.runAlive then some s else none
  | .runExit =>
    if s.runAlive && s.cancelled then some { s with runAlive := false }
    else none
  | .sweep => if s.cleanAlive then some s else none
  | .cleanExit =>
    if s.cleanAlive && s.cancelled then some { s with cleanAlive := false }
    else none

/-- Run a sequence of lifecycle events; `none` if any step is impossible. -/
def agRun (s : AgSys) : List AgEvent → Option AgSys
  | [] => some s
  | e :: es =>
    match agStep s e with
    | none => none
    | some s' => agRun s' es

/-- The state of a freshly constructed agent. -/
def agInit : AgSys := ⟨false, false, false, false⟩

/-- Whether a `Process` call begins somewhere after a `Stop` returns. -/
def hasTickAfterStop : List AgEvent → Bool
  | [] => false
  | AgEvent.stop :: es => es.any (fun e => e = AgEvent.tick) || hasTickAfterStop es
  | _ :: es => hasTickAfterStop es

/-- `Agent.AddTask`: rejected with the not-running error when the agent is
not running (the Go method checks `a.isRunning` and otherwise forwards to
the processor and returns `nil`). -/
def agAddTask (s : AgSys) : Option GoErr :=
  if s.isRunning then none else some .agentNotRunning

/-- C5 counterexample: `Stop` cancels the context but never joins the two
goroutines, so the event sequence start–stop–tick is a possible execution —
after `Stop` has returned, the `run` loop's `select` finds a pending tick
and starts one more `Processor.Process` call. -/
theorem tick_after_stop_cex :
    agRun agInit [AgEvent.start, AgEvent.stop, AgEvent.tick] =
        some ⟨false, true, true, true⟩ ∧
      hasTickAfterStop [AgEvent.start, AgEvent.stop, AgEvent.tick] = true := by
  decide

/-- The state in which `Stop` leaves a running agent when it returns. -/
def afterStop (s : AgSys) : AgSys :=
  { s with cancelled := true, isRunning := false }

/-- C5 (amended): `Stop` on a running agent cancels the root context and
clears `isRunning` before returning, so an immediately following
`AddTask` fails with the not-running error, and each background loop
terminates once it observes the cancellation — after which it can never
tick again; but `Stop` does not wait for the loops, so a pending tick may
still start one more `Process` call after `Stop` returns. -/
theorem stop_cancels_and_rejects_add_task (s : AgSys)
    (hrun : s.isRunning = true) (halive : s.runAlive = true) :
    agStep s .stop = some (afterStop s) ∧
      agAddTask (afterStop s) = some GoErr.agentNotRunning ∧
      agStep (afterStop s) .runExit =
        some { afterStop s with runAlive := false } ∧
      agStep { afterStop s with runAlive := false } .tick = none := by
  refine ⟨?_, rfl, ?_, rfl⟩
  · simp [agStep, hrun, afterStop]
  · simp [agStep, halive, afterStop]

/-- Witness for C5's amended statement at the state reached by `Start`. -/
theorem stop_cancels_and_rejects_add_task_witness :
    agStep ⟨true, false, true, true⟩ .stop = some ⟨false, true, true, true⟩ ∧
      agAddTask ⟨false, true, true, true⟩ = some GoErr.agentNotRunning ∧
      agStep ⟨false, true, true, true⟩ .runExit =
        some ⟨false, true, false, true⟩ ∧
      agStep ⟨false, true, false, true⟩ .tick = none :=
  stop_cancels_and_rejects_add_task ⟨true, false, true, true⟩ rfl rfl

end Lilith
